import Mathlib

set_option maxRecDepth 100000

/-!
Verification of the structured-annotation harvester of the
`era-system-widget` repository.

The JavaScript sources are shallowly embedded: JS strings become lists of
UTF-16 code units (`List Nat`; every string occurring in the program is in
the BMP, where code units and code points coincide), regular-expression
scans become explicit recursive scanners that mirror the leftmost,
non-greedy semantics of the concrete regexes used, and the asynchronous
fetch pipeline becomes a pure function from the fetched page bodies to the
output snapshot.  The repository holds three generations of the harvester;
the current one (`server/services/clickup-system.js`) is embedded in the
root namespace `Era`, the two older variants that are still part of the
source tree are embedded in `Era.P000` (the variant using
`normalizeHostToken`) and `Era.P001` (the variant with the per-body
deduplication step).
-/

namespace Era

/-- JS strings, modelled as lists of UTF-16 code units. -/
abbrev JsStr := List Nat

/-- Code units of a Lean string literal (all literals used are in the BMP). -/
def jstr (s : String) : JsStr := s.data.map Char.toNat

/-- The whitespace class of JS `String.prototype.trim` and of the regexp
class `\s` (BMP part): tab, LF, VT, FF, CR, space, NBSP and the Unicode
space separators, LS, PS, NNBSP, MMSP, ideographic space and the BOM. -/
def isJsWs (c : Nat) : Bool :=
  c == 9 || c == 10 || c == 11 || c == 12 || c == 13 || c == 32 || c == 160 ||
  c == 0x1680 || (0x2000 ≤ c && c ≤ 0x200A) || c == 0x2028 || c == 0x2029 ||
  c == 0x202F || c == 0x205F || c == 0x3000 || c == 0xFEFF

/-- Drop leading JS whitespace (the `trimStart` half of `String.trim`). -/
def dropStartWs (l : JsStr) : JsStr := l.dropWhile isJsWs

/-- Drop trailing JS whitespace (the `trimEnd` half of `String.trim`). -/
def dropEndWs (l : JsStr) : JsStr := (l.reverse.dropWhile isJsWs).reverse

/-- JS `String.prototype.trim`. -/
def trim (l : JsStr) : JsStr := dropEndWs (dropStartWs l)

/-- ASCII lower-casing of one code unit (the sources only lower-case ASCII
identifiers, enum tokens and hostnames). -/
def lowerChar (c : Nat) : Nat := if 65 ≤ c ∧ c ≤ 90 then c + 32 else c

/-- JS `String.prototype.toLowerCase`, restricted to ASCII letters. -/
def lowerAscii (l : JsStr) : JsStr := l.map lowerChar

/-- The character class `[,;]` used by `replace(/[,;]+$/, "")`. -/
def isCommaSemi (c : Nat) : Bool := c == 44 || c == 59

/-- JS `s.replace(/[,;]+$/, "")`: remove the maximal trailing run of commas
and semicolons. -/
def stripTrailingPunct (l : JsStr) : JsStr := (l.reverse.dropWhile isCommaSemi).reverse

/-! ### Content normalizer (`prepareSystemSource`) -/

/-- Tail of the entity `&amp;` after the ampersand. -/
def entAmp : JsStr := jstr "amp;"

/-- Tail of the entity `&lt;` after the ampersand. -/
def entLt : JsStr := jstr "lt;"

/-- Tail of the entity `&gt;` after the ampersand. -/
def entGt : JsStr := jstr "gt;"

/-- Tail of the entity `&quot;` after the ampersand. -/
def entQuot : JsStr := jstr "quot;"

/-- Tail of the entity `&#39;` after the ampersand. -/
def entNum39 : JsStr := jstr "#39;"

/-- One left-to-right pass of `s.replace(/&(amp|lt|gt|quot|#39);/g, m => map[m])`:
at each position, if one of the five entities starts here it is replaced by
its character and the scan resumes after it, otherwise the character is
copied.  The fuel argument only serves structural termination; it is always
called with at least the length of the list. -/
def decodeGo : Nat → JsStr → JsStr
  | 0, l => l
  | _+1, [] => []
  | f+1, c :: r =>
    if c == 38 then
      if entAmp.isPrefixOf r then 38 :: decodeGo f (r.drop 4)
      else if entLt.isPrefixOf r then 60 :: decodeGo f (r.drop 3)
      else if entGt.isPrefixOf r then 62 :: decodeGo f (r.drop 3)
      else if entQuot.isPrefixOf r then 34 :: decodeGo f (r.drop 5)
      else if entNum39.isPrefixOf r then 39 :: decodeGo f (r.drop 4)
      else c :: decodeGo f r
    else c :: decodeGo f r

/-- The entity-decoding pass of `prepareSystemSource`. -/
def decodeEntities (l : JsStr) : JsStr := decodeGo l.length l

/-- One pass of `s.replace(/\\t/g, "t")` for a two-character pattern
backslash-`target`: every occurrence of `\target` becomes `target`. -/
def unescGo (target : Nat) : Nat → JsStr → JsStr
  | 0, l => l
  | _+1, [] => []
  | f+1, c :: r =>
    if c == 92 && r.head? == some target then target :: unescGo target f r.tail
    else c :: unescGo target f r

/-- `s.replace(/\\\[/g, "[").replace(/\\\]/g, "]")`: first unescape all
escaped opening brackets, then all escaped closing brackets. -/
def unescapeBrackets (l : JsStr) : JsStr :=
  let a := unescGo 91 l.length l
  unescGo 93 a.length a

/-- The character class `[U+200B - U+200D, U+FEFF]` of zero-width characters. -/
def isZeroWidth (c : Nat) : Bool := (0x200B ≤ c && c ≤ 0x200D) || c == 0xFEFF

/-- The zero-width-stripping pass: remove every zero-width character. -/
def stripZeroWidth (l : JsStr) : JsStr := l.filter (fun c => !(isZeroWidth c))

/-- `prepareSystemSource` of `server/services/clickup-system.js`: decode the
five HTML entities, unescape `\[` and `\]`, strip zero-width characters. -/
def prepareSystemSource (l : JsStr) : JsStr :=
  stripZeroWidth (unescapeBrackets (decodeEntities l))

/-! ### Enum-field normalizers of `clickup-system.js` -/

/-- The string "ok". -/
def strOk : JsStr := jstr "ok"

/-- The string "warning" (per-entry severity enum value). -/
def strWarning : JsStr := jstr "warning"

/-- The string "error". -/
def strError : JsStr := jstr "error"

/-- The string "warn" (aggregate severity enum value). -/
def strWarn : JsStr := jstr "warn"

/-- The string "yes". -/
def strYes : JsStr := jstr "yes"

/-- The string "no". -/
def strNo : JsStr := jstr "no"

/-- The string "@" (the global-audience token). -/
def strAt : JsStr := jstr "@"

/-- The shared preamble `(s || "").toString().trim().toLowerCase().replace(/[,;]+$/, "")`
of `normalizeStatus`, `normalizeSolved` and `normalizeDisplay`; an absent
field (`undefined`) behaves as the empty string. -/
def normToken (o : Option JsStr) : JsStr :=
  stripTrailingPunct (lowerAscii (trim (o.getD [])))

/-- `normalizeStatus` of `clickup-system.js`. -/
def normalizeStatus (o : Option JsStr) : JsStr :=
  let v := normToken o
  if v == strWarn then strWarning
  else if v == jstr "incident" then strError
  else if v == jstr "degraded" then strWarning
  else if v == strOk || v == strWarning || v == strError then v
  else strOk

/-- `normalizeSolved` of `clickup-system.js` (the legacy resolution flag;
anything unrecognized, including an absent field, normalizes to "no"). -/
def normalizeSolved (o : Option JsStr) : JsStr :=
  let v := normToken o
  if v == strYes || v == jstr "true" || v == jstr "1" then strYes
  else if v == strNo || v == jstr "false" || v == jstr "0" then strNo
  else strNo

/-- `normalizeDisplay` of `clickup-system.js` (the new visibility flag;
anything unrecognized, including an absent field, normalizes to ""). -/
def normalizeDisplay (o : Option JsStr) : JsStr :=
  let v := normToken o
  if v == strYes || v == jstr "true" || v == jstr "1" || v == jstr "on" then strYes
  else if v == strNo || v == jstr "false" || v == jstr "0" || v == jstr "off" then strNo
  else []

/-! ### Audience (domain) list: `parseDomains` of `clickup-system.js` -/

/-- The string "www.". -/
def strWwwDot : JsStr := jstr "www."

/-- `x.startsWith("www.") ? x.slice(4) : x`. -/
def stripWww (x : JsStr) : JsStr := if strWwwDot.isPrefixOf x then x.drop 4 else x

/-- `String.prototype.split` on a single separator character (accumulator
holds the current piece reversed). -/
def splitOnGo (sep : Nat) : JsStr → JsStr → List JsStr
  | cur, [] => [cur.reverse]
  | cur, c :: r =>
    if c == sep then cur.reverse :: splitOnGo sep [] r else splitOnGo sep (c :: cur) r

/-- `String.prototype.split` on a single separator character. -/
def splitOn (sep : Nat) (l : JsStr) : List JsStr := splitOnGo sep [] l

/-- `Array.from(new Set(parts))`: first-occurrence-order deduplication of a
list of strings. -/
def dedupStrsGo (seen : List JsStr) : List JsStr → List JsStr
  | [] => []
  | x :: xs => if x ∈ seen then dedupStrsGo seen xs else x :: dedupStrsGo (x :: seen) xs

/-- `parseDomains` of `server/services/clickup-system.js`: comma-split, trim
and lower-case each token, drop empties, strip a leading `www.`, collapse to
the empty (global) list when any token is the literal `@`, deduplicate. -/
def parseDomains (o : Option JsStr) : List JsStr :=
  match o with
  | none => []
  | some v =>
    let raw := trim v
    if raw == [] || raw == strAt then []
    else
      let parts :=
        ((((splitOn 44 raw).map (fun x => lowerAscii (trim x))).filter
            (fun x => !(x == []))).map stripWww)
      if strAt ∈ parts then [] else dedupStrsGo [] parts

/-! ### Annotation block scanner (the regex `/\[system\]([\s\S]*?)\[\/system\]/gi`) -/

/-- The lowercase opening tag. -/
def tagOpen : JsStr := jstr "[system]"

/-- The lowercase closing tag. -/
def tagClose : JsStr := jstr "[/system]"

/-- Split at the first (case-insensitive) occurrence of `[/system]`: returns
the text before it and the text after it, or `none` when there is no
occurrence.  This is the lazy interior `([\s\S]*?)` of the block regex. -/
def splitAtClose : JsStr → Option (JsStr × JsStr)
  | [] => none
  | c :: r =>
    if lowerAscii ((c :: r).take 9) == tagClose then some ([], (c :: r).drop 9)
    else
      match splitAtClose r with
      | some (inner, after) => some (c :: inner, after)
      | none => none

/-- Repeated `re.exec` of the global block regex: find the next
case-insensitive `[system]`, take the (lazy) interior up to the next
`[/system]`, resume after the closing tag.  An opening tag with no closing
tag after it ends the scan, exactly as the regex then fails to match at this
and every later position.  The fuel argument only serves structural
termination; the scan consumes at least one character per step, so fuel
equal to the length of the input never runs out. -/
def extractBlocksGo : Nat → JsStr → List JsStr
  | 0, _ => []
  | _+1, [] => []
  | f+1, c :: r =>
    if lowerAscii ((c :: r).take 8) == tagOpen then
      match splitAtClose ((c :: r).drop 8) with
      | some (inner, after) => inner :: extractBlocksGo f after
      | none => []
    else extractBlocksGo f r

/-- All (interiors of) annotation blocks of a string, in order. -/
def extractBlocks (l : JsStr) : List JsStr := extractBlocksGo l.length l

/-! ### Key/value line parsing of the block interior -/

/-- The character class `[A-Za-z0-9_.-]` of the key part of a
`key: value` / `key=value` line. -/
def isKeyChar (c : Nat) : Bool :=
  (65 ≤ c && c ≤ 90) || (97 ≤ c && c ≤ 122) || (48 ≤ c && c ≤ 57) ||
  c == 95 || c == 46 || c == 45

/-- Match `/^([A-Za-z0-9_.-]+)\s*[:=]\s*(.*)$/` against a line: the key (raw,
not yet lower-cased) and the value (the rest of the line after the separator
and any whitespace following it), or `none` when the line is not a
`key separator value` line. -/
def parseKV (l : JsStr) : Option (JsStr × JsStr) :=
  let k := l.takeWhile isKeyChar
  if k == [] then none
  else
    match (l.dropWhile isKeyChar).dropWhile isJsWs with
    | c :: r => if c == 58 || c == 61 then some (k, r.dropWhile isJsWs) else none
    | [] => none

/-- Split on `/\r?\n/` (accumulator holds the current line reversed; a CR
immediately before the LF is consumed with it). -/
def splitLinesGo : JsStr → JsStr → List JsStr
  | cur, [] => [cur.reverse]
  | cur, c :: r =>
    if c == 10 then
      (match cur with
       | 13 :: cur2 => cur2.reverse
       | cur2 => cur2.reverse) :: splitLinesGo [] r
    else splitLinesGo (c :: cur) r

/-- `s.split(/\r?\n/)`. -/
def splitLines (l : JsStr) : List JsStr := splitLinesGo [] l

/-! ### Block interior scanning state (`obj` / `currentKey` of the JS loop)

The JS loop stores fields in a plain object `obj` and tracks the last seen
key in `currentKey`.  Only the keys `name`, `status`, `display`, `domain`,
`solved` and `message` are ever read back, so the state keeps exactly those
(writes to any other key only move `currentKey`, which is observationally
the behavior of the JS object). -/

/-- The key "message". -/
def keyMessage : JsStr := jstr "message"

/-- The parse state of one block interior. -/
structure BlockFields where
  name : Option JsStr
  status : Option JsStr
  display : Option JsStr
  domain : Option JsStr
  solved : Option JsStr
  message : Option JsStr
  currentKey : Option JsStr
deriving DecidableEq

/-- The empty state (`const obj = {}; let currentKey = null`). -/
def emptyFields : BlockFields := ⟨none, none, none, none, none, none, none⟩

/-- `obj[key] = val; currentKey = key` for a non-`message` key (`key` is
already lower-cased). -/
def setField (st : BlockFields) (key val : JsStr) : BlockFields :=
  if key == jstr "name" then
    ⟨some val, st.status, st.display, st.domain, st.solved, st.message, some key⟩
  else if key == jstr "status" then
    ⟨st.name, some val, st.display, st.domain, st.solved, st.message, some key⟩
  else if key == jstr "display" then
    ⟨st.name, st.status, some val, st.domain, st.solved, st.message, some key⟩
  else if key == jstr "domain" then
    ⟨st.name, st.status, st.display, some val, st.solved, st.message, some key⟩
  else if key == jstr "solved" then
    ⟨st.name, st.status, st.display, st.domain, some val, st.message, some key⟩
  else
    ⟨st.name, st.status, st.display, st.domain, st.solved, st.message, some key⟩

/-- Set `obj.message` without touching `currentKey`. -/
def withMessage (st : BlockFields) (m : JsStr) : BlockFields :=
  ⟨st.name, st.status, st.display, st.domain, st.solved, some m, st.currentKey⟩

/-- Set `obj.message` and `currentKey = "message"`. -/
def withMessageKey (st : BlockFields) (m : JsStr) : BlockFields :=
  ⟨st.name, st.status, st.display, st.domain, st.solved, some m, some keyMessage⟩

/-- One iteration of the line loop of `extractAllSystemEntries` in
`server/services/clickup-system.js`: blank lines append a newline to an
in-progress message, `key: value` / `key=value` lines set a field (the value
is trimmed and stripped of trailing commas/semicolons, except that for
`message` the normalized value is appended and an empty value is ignored),
any other line is a continuation of an in-progress message, appended raw
with a separating newline when one is not already pending. -/
def processLine (st : BlockFields) (rawLine : JsStr) : BlockFields :=
  let lt := trim rawLine
  if lt == [] then
    if st.currentKey == some keyMessage then withMessage st ((st.message.getD []) ++ [10])
    else st
  else
    match parseKV lt with
    | some (k, v) =>
      let key := lowerAscii k
      let val := trim (stripTrailingPunct (trim v))
      if key == keyMessage then withMessageKey st ((st.message.getD []) ++ val)
      else setField st key val
    | none =>
      if st.currentKey == some keyMessage then
        let m := st.message.getD []
        let m2 := if m ≠ [] ∧ m.getLast? ≠ some 10 then m ++ [10] else m
        withMessage st (m2 ++ rawLine)
      else st

/-- Scan all lines of a block interior. -/
def parseBlockFields (innerRaw : JsStr) : BlockFields :=
  (splitLines innerRaw).foldl processLine emptyFields

/-- The visibility decision of `extractAllSystemEntries` (lines 250-259 of
`clickup-system.js`): when `display` normalizes to a recognized value it
alone decides, otherwise the legacy `solved` flag must normalize to "no". -/
def shouldInclude (display solved : Option JsStr) : Bool :=
  let dn := normalizeDisplay display
  if dn ≠ [] then dn == strYes else normalizeSolved solved == strNo

/-- One surviving annotation entry of the current parser. -/
structure SysEntry where
  name : JsStr
  status : JsStr
  display : JsStr
  domains : List JsStr
  message : JsStr
deriving DecidableEq

/-- The default name "System message". -/
def defaultName : JsStr := jstr "System message"

/-- Build the pushed entry from a scanned block, or `none` when the
visibility rule discards the block. -/
def emitEntry (st : BlockFields) : Option SysEntry :=
  if shouldInclude st.display st.solved then
    some
      ⟨(match st.name with
        | some n => if n == [] then defaultName else n
        | none => defaultName),
       normalizeStatus st.status,
       (let dn := normalizeDisplay st.display; if dn == [] then strYes else dn),
       parseDomains st.domain,
       st.message.getD []⟩
  else none

/-- `extractAllSystemEntries` of `server/services/clickup-system.js`:
normalize the page body, scan every `[system]...[/system]` block, skip
blocks whose trimmed interior is empty, scan the (untrimmed) interior line
by line, apply the visibility rule and emit the normalized entries. -/
def extractAllSystemEntries (body : JsStr) : List SysEntry :=
  ((extractBlocks (prepareSystemSource body)).filter
      (fun inner => !(trim inner == []))).filterMap
    (fun inner => emitEntry (parseBlockFields inner))

/-! ### The aggregation pipeline (`harvestSystemMessagesFromDocs`)

The network layer is abstracted away: a run is determined by the documents
the enumerator returns and, for each page, the body that `fetchPageBody`
eventually produced (`[]` both for an empty body and for a failed fetch -
the `if (!entry?.body) continue` guard treats the two identically).  The
`mapLimit` concurrency runner preserves input order in its result array, so
the per-page loop is order-faithfully modelled by mapping over the page
list.  Timestamps are the millisecond values of `date_updated`; `0` plays
the role of an absent/falsy value exactly as in the JS (`Number(x) || 0`,
`p.date_updated ? ... : null`, and `Date.parse(null || "") || 0 = 0`; for a
present value the ISO round-trip `Date.parse(new Date(t).toISOString()) = t`
is exact).  The `updatedAt: new Date().toISOString()` wall-clock field of
the snapshot is not modelled. -/

/-- A page as listed by `listPagesMeta` together with its fetched body. -/
structure PageIn where
  id : JsStr
  name : JsStr
  date_updated : Nat
  body : JsStr
deriving DecidableEq

/-- A document as listed by `listAllDocs`. -/
structure DocIn where
  id : JsStr
  name : JsStr
  pages : List PageIn
deriving DecidableEq

/-- One aggregated message (`{...f, doc_id, doc_name, page_id, page_name, updated}`). -/
structure MsgOut where
  name : JsStr
  status : JsStr
  display : JsStr
  domains : List JsStr
  message : JsStr
  doc_id : JsStr
  doc_name : JsStr
  page_id : JsStr
  page_name : JsStr
  upd : Nat
deriving DecidableEq

/-- Enrich one extracted entry with its document/page metadata. -/
def toMsg (d : DocIn) (p : PageIn) (e : SysEntry) : MsgOut :=
  ⟨e.name, e.status, e.display, e.domains, e.message, d.id, d.name, p.id, p.name, p.date_updated⟩

/-- The delta-scan filter: with a zero (falsy) cutoff all pages are taken,
otherwise only pages with `date_updated >= cutoffMs`. -/
def recentPages (cutoff : Nat) (pages : List PageIn) : List PageIn :=
  if cutoff = 0 then pages else pages.filter (fun p => decide (cutoff ≤ p.date_updated))

/-- The message-collection loops of `harvestSystemMessagesFromDocs`: for
every document, for every recent page with a non-empty body, every extracted
entry, in iteration order. -/
def collectMessages (cutoff : Nat) (docs : List DocIn) : List MsgOut :=
  docs.flatMap (fun d =>
    (recentPages cutoff d.pages).flatMap (fun p =>
      if p.body == [] then []
      else (extractAllSystemEntries p.body).map (toMsg d p)))

/-- The severity rank `{error: 0, warning: 1, ok: 2}[status] ?? 9`. -/
def sevRank (m : MsgOut) : Nat :=
  if m.status == strError then 0
  else if m.status == strWarning then 1
  else if m.status == strOk then 2
  else 9

/-- The total preorder realized by the JS sort comparator: severity rank
ascending, then timestamp descending (an absent timestamp parses to 0 and
hence sorts last within its severity group). -/
def msgLE (a b : MsgOut) : Prop :=
  sevRank a < sevRank b ∨ (sevRank a = sevRank b ∧ b.upd ≤ a.upd)

instance : DecidableRel msgLE := fun a b => by unfold msgLE; infer_instance

instance : IsTotal MsgOut msgLE := by
  constructor
  intro a b
  rcases Nat.lt_trichotomy (sevRank a) (sevRank b) with h | h | h
  · exact Or.inl (Or.inl h)
  · rcases Nat.le_total b.upd a.upd with h2 | h2
    · exact Or.inl (Or.inr ⟨h, h2⟩)
    · exact Or.inr (Or.inr ⟨h.symm, h2⟩)
  · exact Or.inr (Or.inl h)

instance : IsTrans MsgOut msgLE := by
  constructor
  intro a b c hab hbc
  rcases hab with h1 | ⟨h1, h1'⟩ <;> rcases hbc with h2 | ⟨h2, h2'⟩
  · exact Or.inl (Nat.lt_trans h1 h2)
  · exact Or.inl (h2 ▸ h1)
  · exact Or.inl (h1 ▸ h2)
  · exact Or.inr ⟨h1.trans h2, Nat.le_trans h2' h1'⟩

/-- `messages.sort(comparator)`: modelled by insertion sort along the
preorder realized by the comparator (the claim-relevant observables,
sortedness and the underlying multiset, are those of any correct sort). -/
def sortMessages (ms : List MsgOut) : List MsgOut := List.insertionSort msgLE ms

/-- The aggregate status of a run (`overall` of the snapshot). -/
def overallOf (ms : List MsgOut) : JsStr :=
  if ms.any (fun m => m.status == strError) then strError
  else if ms.any (fun m => m.status == strWarning) then strWarn
  else strOk

/-- The output snapshot (without the wall-clock `updatedAt`). -/
structure Snapshot where
  overall : JsStr
  messages : List MsgOut
deriving DecidableEq

/-- `harvestSystemMessagesFromDocs` of `server/services/clickup-system.js`,
as a pure function of the enumerated documents and fetched bodies. -/
def harvestSystemMessagesFromDocs (cutoff : Nat) (docs : List DocIn) : Snapshot :=
  let ms := sortMessages (collectMessages cutoff docs)
  ⟨overallOf ms, ms⟩

/-! ### `withBackoff` (the resilient fetch wrapper) -/

/-- A JS error as seen by `withBackoff`: `err?.status` may be absent. -/
structure JsError where
  status : Option Nat
deriving DecidableEq

/-- `s === 429 || (s >= 500 && s < 600)`; with `s` undefined both
comparisons are false. -/
def retriable (e : JsError) : Bool :=
  match e.status with
  | some s => s == 429 || (500 ≤ s && s < 600)
  | none => false

/-- The retry loop of `withBackoff`, one outcome per attempt index: attempt
`i` succeeds or fails per `fn i`; a retriable failure with `i < tries - 1`
loops (the backoff sleep has no observable effect and is not modelled), any
other failure is rethrown.  Returns the result together with the number of
attempts made.  The fuel is the number of remaining loop iterations
(`tries - i`); the fuel-exhausted branch is the `throw new
Error("unreachable")` after the loop, reachable only when `tries = 0`. -/
def withBackoffGo {α : Type} (fn : Nat → Except JsError α) (tries : Nat) :
    Nat → Nat → Except JsError α × Nat
  | i, 0 => (Except.error ⟨none⟩, i)
  | i, f+1 =>
    match fn i with
    | Except.ok a => (Except.ok a, i + 1)
    | Except.error e =>
      if retriable e && decide (i < tries - 1) then withBackoffGo fn tries (i + 1) f
      else (Except.error e, i + 1)

/-- `withBackoff(fn, tries)` with its default `tries = 5` supplied by
callers: the final outcome and the number of attempts made. -/
def withBackoff {α : Type} (fn : Nat → Except JsError α) (tries : Nat) :
    Except JsError α × Nat :=
  withBackoffGo fn tries 0 tries

/-! ### The read-only status endpoint (`GET /api/status` in `server/index.js`) -/

/-- The observable response of the status endpoint: either the artifact
content sent verbatim, or the safe fallback snapshot
`{overall: "ok", updatedAt: now, messages: []}`. -/
inductive StatusResponse where
  | verbatim (raw : JsStr)
  | fallbackSnapshot (overall : JsStr) (updatedAt : JsStr) (messages : List JsStr)
deriving DecidableEq

/-- The handler of `GET /api/status`: `readFileSync` either yields the raw
artifact (sent verbatim) or throws (missing or unreadable file), in which
case the fallback snapshot is served. -/
def apiStatusHandler (readResult : Except JsStr JsStr) (now : JsStr) : StatusResponse :=
  match readResult with
  | Except.ok raw => StatusResponse.verbatim raw
  | Except.error _ => StatusResponse.fallbackSnapshot strOk now []

namespace P000

/-!
The older harvester variant kept in the source tree (the third file of
`src/unnamed/part_000`): its `prepareSource`, `normalizeStatus`,
`normalizeDisplay`, `normalizeHostToken`, `parseDomains` and
`extractAllSystemEntries`.
-/

/-- `prepareSource` of the `part_000` variant: entity decoding and bracket
unescaping, without the zero-width stripping of the current version. -/
def prepareSource (l : JsStr) : JsStr := unescapeBrackets (decodeEntities l)

/-- `normalizeStatus` of the `part_000` variant (has the extra
`success -> ok` mapping). -/
def normalizeStatus (o : Option JsStr) : JsStr :=
  let v := normToken o
  if v == strWarn then strWarning
  else if v == jstr "incident" then strError
  else if v == jstr "degraded" then strWarning
  else if v == jstr "success" then strOk
  else if v == strOk || v == strWarning || v == strError then v
  else strOk

/-- `normalizeDisplay` of the `part_000` variant: only a recognized negative
hides; everything else (including an absent field) is "yes". -/
def normalizeDisplay (o : Option JsStr) : JsStr :=
  let v := normToken o
  if v == strNo || v == jstr "false" || v == jstr "0" || v == jstr "off" then strNo
  else strYes

/-- Match the markdown-link pattern `\[([^\]]+)\]\(([^)]+)\)` at the head of
the input: the link text, the link url and the rest of the input. -/
def matchMdLink (l : JsStr) : Option (JsStr × JsStr × JsStr) :=
  match l with
  | 91 :: r =>
    let text := r.takeWhile (fun c => !(c == 93))
    if text == [] then none
    else
      match r.dropWhile (fun c => !(c == 93)) with
      | 93 :: 40 :: r2 =>
        let url := r2.takeWhile (fun c => !(c == 41))
        if url == [] then none
        else
          match r2.dropWhile (fun c => !(c == 41)) with
          | 41 :: rest => some (text, url, rest)
          | _ => none
      | _ => none
  | _ => none

/-- The global markdown-link replacement
`x.replace(/\[([^\]]+)\]\(([^)]+)\)/g, (m, text, url) => trim(text) || trim(url))`.
Fuel only serves structural termination (one character or one whole match is
consumed per step). -/
def mdReplaceGo : Nat → JsStr → JsStr
  | 0, l => l
  | _+1, [] => []
  | f+1, c :: r =>
    if c == 91 then
      match matchMdLink (c :: r) with
      | some (text, url, rest) =>
        (let t := trim text; if t == [] then trim url else t) ++ mdReplaceGo f rest
      | none => c :: mdReplaceGo f r
    else c :: mdReplaceGo f r

/-- The markdown-link replacement pass of `normalizeHostToken`. -/
def mdReplace (l : JsStr) : JsStr := mdReplaceGo l.length l

/-- `/^https?:\/\//i` matching the longer `https://` head. -/
def startsHttps (x : JsStr) : Bool := lowerAscii (x.take 8) == jstr "https://"

/-- `/^https?:\/\//i` matching the `http://` head. -/
def startsHttp (x : JsStr) : Bool := lowerAscii (x.take 7) == jstr "http://"

/-- `/^https?:\/\//i.test(x)`. -/
def startsHttpAny (x : JsStr) : Bool := startsHttp x || startsHttps x

/-- The part of a URL authority after the userinfo (after the last `@`). -/
def afterLastAt (l : JsStr) : JsStr := (l.reverse.takeWhile (fun c => !(c == 64))).reverse

/-- `new URL(x).hostname` for an `x` matching `/^https?:\/\//i`, modelled
for the simple authorities the domain lists contain (no IPv6 literals, no
percent-encoding, no IDNA): the authority runs to the first `/`, `?` or `#`,
userinfo before the last `@` and a `:port` suffix are dropped, and the
hostname is lower-cased; an empty hostname makes the constructor throw,
which the `catch {}` turns into leaving the token unchanged. -/
def urlHostname (x : JsStr) : Option JsStr :=
  let rest := if startsHttps x then x.drop 8 else x.drop 7
  let auth := rest.takeWhile (fun c => !(c == 47 || c == 63 || c == 35))
  let host := (afterLastAt auth).takeWhile (fun c => !(c == 58))
  if host == [] then none else some (lowerAscii host)

/-- `s.replace(/^https?:\/\//i, "")`. -/
def dropScheme (x : JsStr) : JsStr :=
  if startsHttps x then x.drop 8 else if startsHttp x then x.drop 7 else x

/-- `normalizeHostToken` of the `part_000` variant: trim, resolve markdown
links, extract the URL hostname when the token is an http(s) URL, strip any
remaining scheme, cut at the first `/`, `?` or `#`, lower-case, trim, strip
a leading `www.`. -/
def normalizeHostToken (input : JsStr) : JsStr :=
  let x0 := trim input
  let x1 := mdReplace x0
  let x2 :=
    if startsHttpAny x1 then
      match urlHostname x1 with
      | some h => h
      | none => x1
    else x1
  let x3 := dropScheme x2
  let x4 := ((x3.takeWhile (fun c => !(c == 47))).takeWhile (fun c => !(c == 63))).takeWhile
    (fun c => !(c == 35))
  stripWww (trim (lowerAscii x4))

/-- `parseDomains` of the `part_000` variant: comma-split, normalize each
token as a hostname, drop empties, collapse to the empty (global) list when
any normalized token is the literal `@`, deduplicate. -/
def parseDomains (o : Option JsStr) : List JsStr :=
  match o with
  | none => []
  | some v =>
    let raw := trim v
    if raw == [] then []
    else if raw == strAt then []
    else
      let parts := ((splitOn 44 raw).map normalizeHostToken).filter (fun x => !(x == []))
      if strAt ∈ parts then [] else dedupStrsGo [] parts

/-- One iteration of the line loop of the `part_000`
`extractAllSystemEntries`: like the current one except that a line of the
form `[ ... ]` is first unwrapped to its bracket interior, the `message`
value is appended raw (untrimmed), and other values are only trimmed (no
trailing-punctuation stripping). -/
def processLine (st : BlockFields) (rawLine : JsStr) : BlockFields :=
  let lt := trim rawLine
  if lt == [] then
    if st.currentKey == some keyMessage then withMessage st ((st.message.getD []) ++ [10])
    else st
  else
    let l :=
      if lt.head? == some 91 && lt.getLast? == some 93 && decide (2 ≤ lt.length) then
        trim (lt.drop 1).dropLast
      else lt
    match parseKV l with
    | some (k, v) =>
      let key := lowerAscii k
      if key == keyMessage then withMessageKey st ((st.message.getD []) ++ v)
      else setField st key (trim v)
    | none =>
      if st.currentKey == some keyMessage then
        let m := st.message.getD []
        let m2 := if m ≠ [] ∧ m.getLast? ≠ some 10 then m ++ [10] else m
        withMessage st (m2 ++ rawLine)
      else st

/-- Emit one entry of the `part_000` parser: the visibility flag must
normalize to "yes", the trimmed name must be non-empty, and the emitted
message is the accumulated text trimmed. -/
def emitEntry (st : BlockFields) : Option SysEntry :=
  if normalizeDisplay st.display == strYes then
    if trim (st.name.getD []) == [] then none
    else
      some
        ⟨trim (st.name.getD []), normalizeStatus st.status, strYes,
         parseDomains st.domain, trim (st.message.getD [])⟩
  else none

/-- `extractAllSystemEntries` of the `part_000` variant: blocks of the
normalized body; the *trimmed* interior is scanned line by line (unlike the
current version, which scans the raw interior). -/
def extractAllSystemEntries (body : JsStr) : List SysEntry :=
  (((extractBlocks (prepareSource body)).map trim).filter
      (fun inner => !(inner == []))).filterMap
    (fun inner => emitEntry ((splitLines inner).foldl processLine emptyFields))

end P000

namespace P001

/-!
The other older harvester variant kept in the source tree
(`src/unnamed/part_001`): only its deduplication step (lines 196-205 of
`extractAllSystemEntries`) is needed by the claims.
-/

/-- An entry as pushed by the `part_001` extractor (the `solved` field is
the constant "no" there and irrelevant to the deduplication key). -/
structure Entry where
  name : JsStr
  status : JsStr
  message : JsStr
deriving DecidableEq

/-- The separator "||" of the deduplication key template. -/
def sepBars : JsStr := jstr "||"

/-- The deduplication key `` `${r.name}||${r.status}||${r.message}` ``. -/
def dedupKey (e : Entry) : JsStr := e.name ++ sepBars ++ e.status ++ sepBars ++ e.message

/-- The `seen`-set loop of the deduplication step. -/
def dedupGo (seen : List JsStr) : List Entry → List Entry
  | [] => []
  | r :: rs =>
    if dedupKey r ∈ seen then dedupGo seen rs else r :: dedupGo (dedupKey r :: seen) rs

/-- The deduplication step of the `part_001` `extractAllSystemEntries`:
collapse entries with equal `(name, status, message)` keys, keeping the
first occurrence, within the entry list of one page body. -/
def dedupEntries (rs : List Entry) : List Entry := dedupGo [] rs

end P001

/-! ### Concrete inputs used by the claim counterexamples and witnesses -/

/-- A page body holding one annotation block (name X, status error,
message "down"). -/
def bodyDup : JsStr := jstr "[system]\nname: X\nstatus: error\nmessage: down[/system]"

/-- One document with two pages carrying identical annotation blocks. -/
def docsDup : List DocIn :=
  [⟨jstr "d1", jstr "Doc", [⟨jstr "p1", jstr "PageA", 2000, bodyDup⟩,
    ⟨jstr "p2", jstr "PageB", 1000, bodyDup⟩]⟩]

/-- A page body whose block has a present but unrecognized `display` value
and no `solved` field. -/
def bodyMaybe : JsStr := jstr "[system]\nname: X\ndisplay: maybe\nmessage: hi[/system]"

/-- A page body whose block accumulates trailing newlines into the message. -/
def bodyTrail : JsStr := jstr "[system]\nsolved: no\nmessage: hi\n\n[/system]"

/-- A plain page body with one visible block. -/
def bodyPlain : JsStr := jstr "[system]\nname: X\nmessage: hi\n[/system]"

/-- One document with one page whose block has severity error. -/
def docsErr : List DocIn :=
  [⟨jstr "d", jstr "Doc",
    [⟨jstr "p", jstr "Page", 7, jstr "[system]\nname: X\nstatus: error\nmessage: m[/system]"⟩]⟩]

/-- A fetch whose every attempt fails with HTTP 429. -/
def fn429 : Nat → Except JsError Nat := fun _ => Except.error ⟨some 429⟩

/-- A fetch whose every attempt fails with HTTP 404. -/
def fn404 : Nat → Except JsError Nat := fun _ => Except.error ⟨some 404⟩

/-- A fetch that fails once with HTTP 500 and then succeeds. -/
def fnOnce : Nat → Except JsError Nat :=
  fun i => if i = 0 then Except.error ⟨some 500⟩ else Except.ok 42

/-- The inclusion rule exactly as claim C2 words it (a spec-side predicate,
written from the claim, to be compared with the code-side `shouldInclude`):
the visibility field is present and normalizes to "yes", or the visibility
field is absent and the legacy resolution field normalizes to "no". -/
def specIncludeC2 (display solved : Option JsStr) : Prop :=
  (display ≠ none ∧ normalizeDisplay display = strYes) ∨
  (display = none ∧ normalizeSolved solved = strNo)

instance (d s : Option JsStr) : Decidable (specIncludeC2 d s) := by
  unfold specIncludeC2
  infer_instance

/-! ### General lemmas about the string primitives -/

theorem dropWhile_idem (p : Nat → Bool) (l : List Nat) :
    (l.dropWhile p).dropWhile p = l.dropWhile p := by
  induction l with
  | nil => rfl
  | cons c r ih =>
    by_cases h : p c
    · simp [List.dropWhile, h, ih]
    · simp [List.dropWhile, h]

theorem dropWhile_cons_eq_self (p : Nat → Bool) (c : Nat) (t : List Nat)
    (h : (c :: t).dropWhile p = c :: t) : p c = false := by
  by_cases hc : p c
  · exfalso
    have hlen : ((c :: t).dropWhile p).length ≤ t.length := by
      simp only [List.dropWhile, hc]
      exact (@List.dropWhile_sublist _ t p).length_le
    rw [h] at hlen
    simp at hlen
  · simpa using hc

theorem dropWhile_eq_self_of_pre (p : Nat → Bool) (u v : List Nat)
    (hu : u.dropWhile p = u) (hv : v <+: u) : v.dropWhile p = v := by
  cases v with
  | nil => rfl
  | cons c t =>
    obtain ⟨w, hw⟩ := hv
    have hc : p c = false := by
      apply dropWhile_cons_eq_self p c (t ++ w)
      rw [← List.cons_append, hw]
      exact hw ▸ hu
    simp [List.dropWhile, hc]

theorem dropEndWs_isPrefixOf (u : JsStr) : dropEndWs u <+: u := by
  refine ⟨(u.reverse.takeWhile isJsWs).reverse, ?_⟩
  show (u.reverse.dropWhile isJsWs).reverse ++ (u.reverse.takeWhile isJsWs).reverse = u
  rw [← List.reverse_append, List.takeWhile_append_dropWhile, List.reverse_reverse]

theorem dropEndWs_idem (l : JsStr) : dropEndWs (dropEndWs l) = dropEndWs l := by
  simp [dropEndWs, List.reverse_reverse, dropWhile_idem]

theorem trim_trim (l : JsStr) : trim (trim l) = trim l := by
  have hstart : (dropStartWs l).dropWhile isJsWs = dropStartWs l := by
    simpa [dropStartWs] using dropWhile_idem isJsWs l
  have h1 : dropStartWs (dropEndWs (dropStartWs l)) = dropEndWs (dropStartWs l) := by
    simpa [dropStartWs] using
      dropWhile_eq_self_of_pre isJsWs (dropStartWs l) (dropEndWs (dropStartWs l))
        hstart (dropEndWs_isPrefixOf (dropStartWs l))
  show dropEndWs (dropStartWs (dropEndWs (dropStartWs l))) = dropEndWs (dropStartWs l)
  rw [h1, dropEndWs_idem]

/-! ### The normalizer passes are no-ops on inputs without their trigger characters -/

theorem decodeGo_eq_self (f : Nat) (l : JsStr) (h : 38 ∉ l) : decodeGo f l = l := by
  induction f generalizing l with
  | zero => rfl
  | succ f ih =>
    cases l with
    | nil => rfl
    | cons c r =>
      have hc : ¬(c = 38) := fun hc => h (hc ▸ List.mem_cons_self c r)
      have hr : 38 ∉ r := fun hr => h (List.mem_cons_of_mem c hr)
      simp [decodeGo, hc, ih r hr]

theorem unescGo_eq_self (t : Nat) (f : Nat) (l : JsStr) (h : 92 ∉ l) :
    unescGo t f l = l := by
  induction f generalizing l with
  | zero => rfl
  | succ f ih =>
    cases l with
    | nil => rfl
    | cons c r =>
      have hc : ¬(c = 92) := fun hc => h (hc ▸ List.mem_cons_self c r)
      have hr : 92 ∉ r := fun hr => h (List.mem_cons_of_mem c hr)
      simp [unescGo, hc, ih r hr]

theorem stripZeroWidth_idem (l : JsStr) : stripZeroWidth (stripZeroWidth l) = stripZeroWidth l := by
  simp [stripZeroWidth, List.filter_filter]

/-! ### Deduplication lemmas -/

theorem dedupStrsGo_subset (seen : List JsStr) (xs : List JsStr) (e : JsStr)
    (h : e ∈ dedupStrsGo seen xs) : e ∈ xs := by
  induction xs generalizing seen with
  | nil => simp [dedupStrsGo] at h
  | cons x xs ih =>
    by_cases hx : x ∈ seen
    · simp only [dedupStrsGo, if_pos hx] at h
      exact List.mem_cons_of_mem x (ih _ h)
    · simp only [dedupStrsGo, if_neg hx] at h
      rcases List.mem_cons.1 h with h | h
      · exact h ▸ List.mem_cons_self x xs
      · exact List.mem_cons_of_mem x (ih _ h)

theorem P001.dedupGo_sublist (seen : List JsStr) (rs : List P001.Entry) :
    (P001.dedupGo seen rs).Sublist rs := by
  induction rs generalizing seen with
  | nil => simp [P001.dedupGo]
  | cons r rs ih =>
    by_cases hr : P001.dedupKey r ∈ seen
    · simp only [P001.dedupGo, if_pos hr]
      exact (ih seen).cons r
    · simp only [P001.dedupGo, if_neg hr]
      exact (ih _).cons₂ r

theorem P001.dedupGo_filter (seen : List JsStr) (rs : List P001.Entry) (k : JsStr) :
    (P001.dedupGo seen rs).filter (fun r => P001.dedupKey r == k) =
      if k ∈ seen then [] else (rs.filter (fun r => P001.dedupKey r == k)).take 1 := by
  induction rs generalizing seen with
  | nil => simp [P001.dedupGo]
  | cons r rs ih =>
    by_cases hr : P001.dedupKey r ∈ seen
    · rw [P001.dedupGo, if_pos hr, ih seen]
      by_cases hk : k ∈ seen
      · simp [hk]
      · have hne : ¬ P001.dedupKey r = k := fun hkr => hk (hkr ▸ hr)
        simp [hk, List.filter_cons, hne]
    · rw [P001.dedupGo, if_neg hr]
      by_cases hrk : P001.dedupKey r = k
      · have hk : ¬ k ∈ seen := fun hk => hr (hrk ▸ hk)
        have hmem : k ∈ P001.dedupKey r :: seen := hrk ▸ List.mem_cons_self _ seen
        simp only [List.filter_cons, ih (P001.dedupKey r :: seen), if_pos hmem]
        simp [hrk, hk]
      · have hiff : (k ∈ P001.dedupKey r :: seen) ↔ (k ∈ seen) := by
          constructor
          · intro hm
            rcases List.mem_cons.1 hm with hm | hm
            · exact absurd hm.symm hrk
            · exact hm
          · exact fun hm => List.mem_cons_of_mem _ hm
        simp only [List.filter_cons, ih (P001.dedupKey r :: seen)]
        by_cases hk : k ∈ seen
        · simp [hiff, hk, hrk]
        · simp [hiff, hk, hrk, List.filter_cons]

/-! ### Aggregate status lemmas -/

theorem overallOf_error (ms : List MsgOut) (h : ∃ m ∈ ms, m.status = strError) :
    overallOf ms = strError := by
  obtain ⟨m, hm, hs⟩ := h
  have : ms.any (fun m => m.status == strError) = true :=
    List.any_eq_true.2 ⟨m, hm, beq_iff_eq.2 hs⟩
  simp [overallOf, this]

theorem any_eq_false_of_not_exists (ms : List MsgOut) (s : JsStr)
    (h : ¬ ∃ m ∈ ms, m.status = s) : ms.any (fun m => m.status == s) = false := by
  rcases Bool.eq_false_or_eq_true (ms.any (fun m => m.status == s)) with hb | hb
  · obtain ⟨m2, hm2, hs2⟩ := List.any_eq_true.1 hb
    exact absurd ⟨m2, hm2, beq_iff_eq.1 hs2⟩ h
  · exact hb

theorem overallOf_warn (ms : List MsgOut) (he : ¬ ∃ m ∈ ms, m.status = strError)
    (h : ∃ m ∈ ms, m.status = strWarning) : overallOf ms = strWarn := by
  obtain ⟨m, hm, hs⟩ := h
  have hw : ms.any (fun m => m.status == strWarning) = true :=
    List.any_eq_true.2 ⟨m, hm, beq_iff_eq.2 hs⟩
  simp [overallOf, any_eq_false_of_not_exists ms strError he, hw]

theorem overallOf_ok (ms : List MsgOut) (he : ¬ ∃ m ∈ ms, m.status = strError)
    (hw : ¬ ∃ m ∈ ms, m.status = strWarning) : overallOf ms = strOk := by
  simp [overallOf, any_eq_false_of_not_exists ms strError he,
    any_eq_false_of_not_exists ms strWarning hw]

/-! ## The claims -/

/-- C1, counterexample: the aggregated output of the current harvester is
not deduplicated - a run over two pages carrying identical blocks yields a
final message list with two entries whose (name, severity, message) triples
are identical. -/
theorem C1_counterexample :
    (harvestSystemMessagesFromDocs 0 docsDup).messages.length = 2 ∧
    ((harvestSystemMessagesFromDocs 0 docsDup).messages.map
        (fun m => (m.name, m.status, m.message))) =
      [(jstr "X", strError, jstr "down"), (jstr "X", strError, jstr "down")] := by
  decide

/-- C1, amended: deduplication by the `(name, status, message)` key, keeping
the first occurrence, is performed only by the deduplication step inside the
`part_001` extractor, i.e. within the entry list of a single page body: the
deduplicated list is a sublist of the input (order preserved), and for every
key its entries are collapsed to exactly the first input entry carrying that
key; the current aggregator performs no deduplication at all (see the
counterexample). -/
theorem C1_theorem (rs : List P001.Entry) (k : JsStr) :
    List.Sublist (P001.dedupEntries rs) rs ∧
    (P001.dedupEntries rs).filter (fun r => P001.dedupKey r == k) =
      (rs.filter (fun r => P001.dedupKey r == k)).take 1 := by
  constructor
  · exact P001.dedupGo_sublist [] rs
  · have h := P001.dedupGo_filter [] rs k
    simpa using h

/-- C2, counterexample: a block whose visibility field is present but
unrecognized (`display: maybe`) and that has no resolution field is included
by the code (the legacy rule fires and an absent `solved` normalizes to
"no"), while the claimed rule - visibility present and "yes", or visibility
absent and not resolved - excludes it. -/
theorem C2_counterexample :
    (extractAllSystemEntries bodyMaybe).length = 1 ∧
    shouldInclude (some (jstr "maybe")) none = true ∧
    ¬ specIncludeC2 (some (jstr "maybe")) none := by
  decide

/-- C2, amended: a parsed block is included iff its visibility field
normalizes to "yes", or its visibility field is absent *or unrecognized*
(normalizes to neither "yes" nor "no") and the legacy resolution field
normalizes to "no"; in particular a block with no visibility field and
`resolved: no` is included, the same block with `resolved: yes` is excluded,
and a block with `visible: no` is excluded regardless of the resolution
field. -/
theorem C2_theorem :
    (∀ display solved : Option JsStr,
      (shouldInclude display solved = true ↔
        (normalizeDisplay display = strYes ∨
          (normalizeDisplay display = [] ∧ normalizeSolved solved = strNo)))) ∧
    shouldInclude none (some (jstr "no")) = true ∧
    shouldInclude none (some (jstr "yes")) = false ∧
    (∀ solved : Option JsStr, shouldInclude (some (jstr "no")) solved = false) := by
  refine ⟨?_, by decide, by decide, ?_⟩
  · intro d s
    have hys : ¬ (([] : JsStr) = strYes) := by decide
    simp only [shouldInclude]
    by_cases h : normalizeDisplay d = []
    · rw [if_neg (fun hn => hn h), h]
      simp [beq_iff_eq, hys]
    · rw [if_pos h]
      simp only [beq_iff_eq]
      constructor
      · exact fun h2 => Or.inl h2
      · intro h2
        rcases h2 with h2 | ⟨h2, _⟩
        · exact h2
        · exact absurd h2 h
  · intro s
    have h : normalizeDisplay (some (jstr "no")) = strNo := by decide
    simp only [shouldInclude]
    rw [h, if_pos (by decide : (strNo : JsStr) ≠ [])]
    decide

/-- C3, counterexample: the content normalizer is not idempotent - on
`&amp;amp;` the first pass yields `&amp;`, which a second pass decodes
further to `&`. -/
theorem C3_counterexample :
    prepareSystemSource (prepareSystemSource (jstr "&amp;amp;")) ≠
      prepareSystemSource (jstr "&amp;amp;") := by
  decide

/-- C3, amended: the normalizer is idempotent on every input whose
normalized form contains no ampersand and no backslash (re-decoding and
re-unescaping such an output is a no-op, and zero-width stripping is always
idempotent); inputs whose normalization produces a new ampersand or a new
escaped bracket, such as a double-encoded entity, are re-normalized
differently (see the counterexample). -/
theorem C3_theorem (s : JsStr) (h38 : 38 ∉ prepareSystemSource s)
    (h92 : 92 ∉ prepareSystemSource s) :
    prepareSystemSource (prepareSystemSource s) = prepareSystemSource s := by
  have hdec : decodeEntities (prepareSystemSource s) = prepareSystemSource s :=
    decodeGo_eq_self _ _ h38
  have hunesc : unescapeBrackets (prepareSystemSource s) = prepareSystemSource s := by
    show unescGo 93 (unescGo 91 (prepareSystemSource s).length (prepareSystemSource s)).length
        (unescGo 91 (prepareSystemSource s).length (prepareSystemSource s)) =
      prepareSystemSource s
    rw [unescGo_eq_self 91 _ _ h92, unescGo_eq_self 93 _ _ h92]
  have hzw : stripZeroWidth (prepareSystemSource s) = prepareSystemSource s := by
    show stripZeroWidth (stripZeroWidth (unescapeBrackets (decodeEntities s))) =
      stripZeroWidth (unescapeBrackets (decodeEntities s))
    exact stripZeroWidth_idem _
  show stripZeroWidth (unescapeBrackets (decodeEntities (prepareSystemSource s))) =
    prepareSystemSource s
  rw [hdec, hunesc, hzw]

/-- C3, witness: the amended idempotence applied to a concrete
ampersand-free, backslash-free input. -/
theorem C3_witness :
    prepareSystemSource (prepareSystemSource (jstr "status: ok")) =
      prepareSystemSource (jstr "status: ok") :=
  C3_theorem (jstr "status: ok") (by decide) (by decide)

/-- C4, counterexample: the current `parseDomains` does not strip scheme or
path - the token of the claim normalizes to the whole lower-cased URL, not
to the claimed hostname `example.com`. -/
theorem C4_counterexample :
    parseDomains (some (jstr "https://www.Example.com/status")) =
      [jstr "https://www.example.com/status"] ∧
    jstr "https://www.example.com/status" ≠ jstr "example.com" := by
  decide

/-- C4, amended: in the current `parseDomains` every entry is only the
trimmed, lower-cased token with a leading `www.` stripped (scheme and path
are not stripped); the legacy `normalizeHostToken` variant does strip
scheme, path and port and lower-cases (the token of the claim normalizes to
`example.com` there); in both versions, whenever any comma-separated token
trims to the literal `@` the whole normalized list is empty (global). -/
theorem C4_theorem :
    (∀ v t : JsStr, t ∈ splitOn 44 (trim v) → trim t = strAt →
      parseDomains (some v) = []) ∧
    (∀ v t : JsStr, t ∈ splitOn 44 (trim v) → trim t = strAt →
      P000.parseDomains (some v) = []) ∧
    (∀ v e : JsStr, e ∈ parseDomains (some v) →
      ∃ t, t ∈ splitOn 44 (trim v) ∧ e = stripWww (lowerAscii (trim t))) ∧
    P000.normalizeHostToken (jstr "https://www.Example.com/status") = jstr "example.com" := by
  refine ⟨?_, ?_, ?_, by decide⟩
  · intro v t ht htr
    simp only [parseDomains]
    by_cases hb : (trim v == [] || trim v == strAt) = true
    · rw [if_pos hb]
    · rw [if_neg hb]
      have hmem : strAt ∈
          ((((splitOn 44 (trim v)).map (fun x => lowerAscii (trim x))).filter
              (fun x => !(x == []))).map stripWww) := by
        have h1 : lowerAscii (trim t) ∈
            (splitOn 44 (trim v)).map (fun x => lowerAscii (trim x)) :=
          List.mem_map_of_mem _ ht
        rw [htr] at h1
        have hat : lowerAscii strAt = strAt := by decide
        rw [hat] at h1
        have h2 : strAt ∈
            ((splitOn 44 (trim v)).map (fun x => lowerAscii (trim x))).filter
              (fun x => !(x == [])) :=
          List.mem_filter.2 ⟨h1, by decide⟩
        have h3 := List.mem_map_of_mem stripWww h2
        have hsw : stripWww strAt = strAt := by decide
        rwa [hsw] at h3
      rw [if_pos hmem]
  · intro v t ht htr
    have hnhm : P000.normalizeHostToken t = strAt := by
      simp only [P000.normalizeHostToken, htr]
      decide
    simp only [P000.parseDomains]
    by_cases hb : (trim v == []) = true
    · rw [if_pos hb]
    · rw [if_neg hb]
      by_cases hb2 : (trim v == strAt) = true
      · rw [if_pos hb2]
      · rw [if_neg hb2]
        have hmem : strAt ∈
            ((splitOn 44 (trim v)).map P000.normalizeHostToken).filter
              (fun x => !(x == [])) := by
          have h1 := List.mem_map_of_mem P000.normalizeHostToken ht
          rw [hnhm] at h1
          exact List.mem_filter.2 ⟨h1, by decide⟩
        rw [if_pos hmem]
  · intro v e he
    simp only [parseDomains] at he
    by_cases hb : (trim v == [] || trim v == strAt) = true
    · rw [if_pos hb] at he
      exact absurd he (List.not_mem_nil e)
    · rw [if_neg hb] at he
      by_cases hat : strAt ∈
          ((((splitOn 44 (trim v)).map (fun x => lowerAscii (trim x))).filter
              (fun x => !(x == []))).map stripWww)
      · rw [if_pos hat] at he
        exact absurd he (List.not_mem_nil e)
      · rw [if_neg hat] at he
        have he2 := dedupStrsGo_subset [] _ e he
        obtain ⟨x, hx, hex⟩ := List.mem_map.1 he2
        obtain ⟨t, ht, hxt⟩ := List.mem_map.1 (List.mem_filter.1 hx).1
        exact ⟨t, ht, by rw [← hex, ← hxt]⟩

/-- C4, witness: the `@`-collapse applied at a concrete domain list, in both
the current and the legacy variant. -/
theorem C4_witness :
    parseDomains (some (jstr "era.dk, @")) = [] ∧
    P000.parseDomains (some (jstr "era.dk, @")) = [] :=
  ⟨C4_theorem.1 (jstr "era.dk, @") (jstr " @") (by decide) (by decide),
   C4_theorem.2.1 (jstr "era.dk, @") (jstr " @") (by decide) (by decide)⟩

/-- C5, counterexample: the current parser emits the accumulated message
text verbatim - a block whose message accumulates trailing blank lines is
emitted with the trailing newlines, which no trimmed string can carry. -/
theorem C5_counterexample :
    (extractAllSystemEntries bodyTrail).map (fun e => e.message) = [jstr "hi\n\n"] ∧
    trim (jstr "hi\n\n") ≠ jstr "hi\n\n" := by
  decide

/-- C5, amended: the trim-on-emit behavior belongs to the `part_000` parser:
every entry it emits has a whitespace-trimmed message (trimming it again is
a no-op); the current `clickup-system.js` parser emits the accumulated
message text verbatim, without trimming (see the counterexample). -/
theorem C5_theorem (body : JsStr) (e : SysEntry)
    (h : e ∈ P000.extractAllSystemEntries body) : trim e.message = e.message := by
  rcases List.mem_filterMap.1 h with ⟨inner, hin, hemit⟩
  revert hemit
  simp only [P000.emitEntry]
  split
  · split
    · intro hemit
      cases hemit
    · intro hemit
      injection hemit with h2
      rw [← h2]
      exact trim_trim _
  · intro hemit
    cases hemit

/-- C5, witness: the amended trimmed-message invariant applied to a concrete
extracted entry of the `part_000` parser. -/
theorem C5_witness : trim (jstr "hi") = jstr "hi" :=
  C5_theorem bodyPlain ⟨jstr "X", strOk, strYes, [], jstr "hi"⟩ (by decide)

/-- C6: the aggregated message list of every run is sorted by severity rank
ascending (error before warning before ok) and, within equal severity, by
page-updated timestamp descending - an absent timestamp takes the key value
0 and therefore sorts as oldest, last within its severity group; the sorted
list is a permutation of the collected messages. -/
theorem C6_theorem (cutoff : Nat) (docs : List DocIn) :
    List.Sorted msgLE (harvestSystemMessagesFromDocs cutoff docs).messages ∧
    List.Perm (harvestSystemMessagesFromDocs cutoff docs).messages
      (collectMessages cutoff docs) := by
  constructor
  · exact List.sorted_insertionSort msgLE (collectMessages cutoff docs)
  · exact List.perm_insertionSort msgLE (collectMessages cutoff docs)

/-- C7: the overall severity of every run is "error" when some surviving
entry has severity "error", else "warn" when some surviving entry has
severity "warning" (note the enum asymmetry: per-entry "warning" maps to
aggregate "warn"), else "ok". -/
theorem C7_theorem (cutoff : Nat) (docs : List DocIn) :
    ((∃ m ∈ (harvestSystemMessagesFromDocs cutoff docs).messages, m.status = strError) →
      (harvestSystemMessagesFromDocs cutoff docs).overall = strError) ∧
    ((¬ ∃ m ∈ (harvestSystemMessagesFromDocs cutoff docs).messages, m.status = strError) →
      (∃ m ∈ (harvestSystemMessagesFromDocs cutoff docs).messages, m.status = strWarning) →
      (harvestSystemMessagesFromDocs cutoff docs).overall = strWarn) ∧
    ((¬ ∃ m ∈ (harvestSystemMessagesFromDocs cutoff docs).messages, m.status = strError) →
      (¬ ∃ m ∈ (harvestSystemMessagesFromDocs cutoff docs).messages, m.status = strWarning) →
      (harvestSystemMessagesFromDocs cutoff docs).overall = strOk) := by
  refine ⟨?_, ?_, ?_⟩
  · exact fun h => overallOf_error _ h
  · exact fun he hw => overallOf_warn _ he hw
  · exact fun he hw => overallOf_ok _ he hw

/-- C7, witness: a concrete run with one error entry has overall severity
"error". -/
theorem C7_witness : (harvestSystemMessagesFromDocs 0 docsErr).overall = strError :=
  (C7_theorem 0 docsErr).1 (by decide)

/-- C8: through `withBackoff` with its default bound of 5 attempts, a call
whose failures are all retriable (HTTP 429 or 5xx) is attempted exactly 5
times and then the last error is rethrown; a failure with any other status
(or no status) is rethrown immediately after a single attempt; a retriable
failure followed by a success returns the success. -/
theorem C8_theorem {α : Type} :
    (∀ (fn : Nat → Except JsError α) (e : JsError),
        (∀ i, i < 5 → ∃ e2, fn i = Except.error e2 ∧ retriable e2 = true) →
        fn 4 = Except.error e → withBackoff fn 5 = (Except.error e, 5)) ∧
    (∀ (fn : Nat → Except JsError α) (e : JsError),
        fn 0 = Except.error e → retriable e = false →
        withBackoff fn 5 = (Except.error e, 1)) ∧
    (∀ (fn : Nat → Except JsError α) (e : JsError) (a : α),
        fn 0 = Except.error e → retriable e = true → fn 1 = Except.ok a →
        withBackoff fn 5 = (Except.ok a, 2)) := by
  refine ⟨?_, ?_, ?_⟩
  · intro fn e hall h4
    obtain ⟨e0, h0, r0⟩ := hall 0 (by omega)
    obtain ⟨e1, h1, r1⟩ := hall 1 (by omega)
    obtain ⟨e2, h2, r2⟩ := hall 2 (by omega)
    obtain ⟨e3, h3, r3⟩ := hall 3 (by omega)
    simp [withBackoff, withBackoffGo, h0, r0, h1, r1, h2, r2, h3, r3, h4]
  · intro fn e h0 hr
    simp [withBackoff, withBackoffGo, h0, hr]
  · intro fn e a h0 hr h1
    simp [withBackoff, withBackoffGo, h0, hr, h1]

/-- C8, witness: the three retry behaviors at concrete fetches - exhausting
the bound on HTTP 429, immediate rethrow on HTTP 404, recovery after one
HTTP 500. -/
theorem C8_witness :
    withBackoff fn429 5 = (Except.error ⟨some 429⟩, 5) ∧
    withBackoff fn404 5 = (Except.error ⟨some 404⟩, 1) ∧
    withBackoff fnOnce 5 = (Except.ok 42, 2) :=
  ⟨(@C8_theorem Nat).1 fn429 ⟨some 429⟩ (fun _ _ => ⟨⟨some 429⟩, rfl, rfl⟩) rfl,
   (@C8_theorem Nat).2.1 fn404 ⟨some 404⟩ rfl rfl,
   (@C8_theorem Nat).2.2 fnOnce ⟨some 500⟩ 42 rfl rfl rfl⟩

/-- C9: the read-only status endpoint serves the artifact verbatim when the
read succeeds, and serves the safe empty-but-valid snapshot (overall "ok",
empty message list) when the artifact is missing or unreadable. -/
theorem C9_theorem :
    (∀ (err now : JsStr),
        apiStatusHandler (Except.error err) now = StatusResponse.fallbackSnapshot strOk now []) ∧
    (∀ (raw now : JsStr), apiStatusHandler (Except.ok raw) now = StatusResponse.verbatim raw) :=
  ⟨fun _ _ => rfl, fun _ _ => rfl⟩

/-- C10: when both the display field and the legacy solved field are
present, a recognized display value ("yes"/"no" after normalization) alone
decides inclusion and the solved field is ignored, while a present but
unrecognized display value hands the decision to the legacy solved rule. -/
theorem C10_theorem (d s : JsStr) :
    (normalizeDisplay (some d) = strYes → shouldInclude (some d) (some s) = true) ∧
    (normalizeDisplay (some d) = strNo → shouldInclude (some d) (some s) = false) ∧
    (normalizeDisplay (some d) = [] →
      (shouldInclude (some d) (some s) = true ↔ normalizeSolved (some s) = strNo)) := by
  refine ⟨?_, ?_, ?_⟩
  · intro h
    simp only [shouldInclude]
    rw [h, if_pos (by decide : (strYes : JsStr) ≠ [])]
    decide
  · intro h
    simp only [shouldInclude]
    rw [h, if_pos (by decide : (strNo : JsStr) ≠ [])]
    decide
  · intro h
    simp only [shouldInclude]
    rw [h, if_neg (fun hn => hn rfl)]
    exact beq_iff_eq

/-- C10, witness: the precedence rule applied at concrete field values -
`display: yes` overrides `solved: yes`, `display: off` overrides
`solved: no`, and an unrecognized `display: maybe` defers to the solved
rule. -/
theorem C10_witness :
    shouldInclude (some (jstr "yes")) (some (jstr "yes")) = true ∧
    shouldInclude (some (jstr "off")) (some (jstr "no")) = false ∧
    (shouldInclude (some (jstr "maybe")) (some (jstr "yes")) = true ↔
      normalizeSolved (some (jstr "yes")) = strNo) :=
  ⟨(C10_theorem (jstr "yes") (jstr "yes")).1 (by decide),
   (C10_theorem (jstr "off") (jstr "no")).2.1 (by decide),
   (C10_theorem (jstr "maybe") (jstr "yes")).2.2 (by decide)⟩

end Era
